import Mathlib

/-!
Verification of the `mcp-llm-server` gateway (park285/llm-kakao-bots).

Shallow embedding of the subsystems the claims concern, translated from
the Python sources under `src/mcp_llm_server/`:

* `utils/unicode.py`  — jamo / emoji detection over Unicode codepoints;
* `domains/twentyq/models.py` — the 5-scale answer parser;
* `infra/usage_repository.py` — the daily token-usage upsert;
* `infra/gemini_client.py` — exception translation of the LLM client;
* `models/guard.py`, `infra/rulepack_loader.py` — rule-pack parsing;
* `infra/korean_nlp.py` — the anomaly-score pipeline;
* `infra/injection_guard.py` — guard evaluation;
* `infra/langgraph_session.py` — session TTL semantics;
* `infra/bot_health_monitor.py` — restart policy.

Text is modelled as `List Char` (Python `str` is a sequence of Unicode
scalar values, as is Lean's `Char`).  Python `float` constants in the
scoring code are modelled as exact rationals (`ℚ`); every constant that
the claims mention (0, 0.5, 0.8, …) is decimal-exact, so no rounding
behaviour is lost.  External effects (the PostgreSQL pool, the Kiwi
tokenizer, the regex engine, subprocesses, sockets) are passed in as
explicit parameters so the control flow around them is embedded exactly.
-/

namespace McpLlm

/-! ## `utils/unicode.py` -/

/-- Python whitespace (`str.isspace` / `re` `\s` for `str` patterns):
ASCII whitespace, the information separators 0x1C–0x1F, NEL, NBSP and
the Unicode space separators.  Used both by `str.strip()` and by the
`\s` class of `JAMO_ONLY_REGEX`. -/
def isPySpace (c : Char) : Bool :=
  c.toNat == 0x09 || c.toNat == 0x0A || c.toNat == 0x0B ||
  c.toNat == 0x0C || c.toNat == 0x0D || c.toNat == 0x1C ||
  c.toNat == 0x1D || c.toNat == 0x1E || c.toNat == 0x1F ||
  c.toNat == 0x20 || c.toNat == 0x85 || c.toNat == 0xA0 ||
  c.toNat == 0x1680 || (0x2000 ≤ c.toNat && c.toNat ≤ 0x200A) ||
  c.toNat == 0x2028 || c.toNat == 0x2029 || c.toNat == 0x202F ||
  c.toNat == 0x205F || c.toNat == 0x3000

/-- Decimal digits for the `\d` class.  The embedding keeps the ASCII
range 0–9; Python's Unicode `\d` additionally covers other `Nd` digits,
which only widens the same character class and plays no role in any
claim. -/
def isPyDigit (c : Char) : Bool :=
  0x30 ≤ c.toNat && c.toNat ≤ 0x39

/-- The explicit ASCII punctuation of `_PUNCT_DIGITS` in `unicode.py`:
`!"#$%&'()*+,-./`, `:;<=>?@`, `[\]^_` with backquote, and the brace
block through `~`. -/
def isAsciiPunct (c : Char) : Bool :=
  (0x21 ≤ c.toNat && c.toNat ≤ 0x2F) || (0x3A ≤ c.toNat && c.toNat ≤ 0x40) ||
  (0x5B ≤ c.toNat && c.toNat ≤ 0x60) || (0x7B ≤ c.toNat && c.toNat ≤ 0x7E)

/-- The four Hangul-jamo blocks of `build_jamo_pattern`. -/
def isJamoChar (c : Char) : Bool :=
  (0x1100 ≤ c.toNat && c.toNat ≤ 0x11FF) ||
  (0x3130 ≤ c.toNat && c.toNat ≤ 0x318F) ||
  (0xA960 ≤ c.toNat && c.toNat ≤ 0xA97F) ||
  (0xD7B0 ≤ c.toNat && c.toNat ≤ 0xD7FF)

/-- Composed Hangul syllables U+AC00–U+D7A3 (`HANGUL_SYLLABLES_*`). -/
def isHangulSyllable (c : Char) : Bool :=
  0xAC00 ≤ c.toNat && c.toNat ≤ 0xD7A3

/-- The character class of `JAMO_ONLY_REGEX`: whitespace, digits,
ASCII punctuation or any jamo block. -/
def isJamoOnlyAllowed (c : Char) : Bool :=
  isPySpace c || isPyDigit c || isAsciiPunct c || isJamoChar c

/-- Drop trailing Python whitespace. -/
def dropTrailingSpace (l : List Char) : List Char :=
  (l.reverse.dropWhile isPySpace).reverse

/-- Python `str.strip()`. -/
def pyStrip (l : List Char) : List Char :=
  dropTrailingSpace (l.dropWhile isPySpace)

/-- `is_jamo_only` from `utils/unicode.py`: strip, require non-empty,
require a jamo character (`JAMO_BLOCK_REGEX.search`) and a full match of
the jamo-only class (`JAMO_ONLY_REGEX.match`, pattern `^[...]+$`). -/
def is_jamo_only (text : List Char) : Bool :=
  let t := pyStrip text
  if t.isEmpty then false
  else t.any isJamoChar && t.all isJamoOnlyAllowed

/-- `UnicodeConstants.EMOJI_RANGES` plus the zero-width joiner, as in
`is_emoji_codepoint`. -/
def is_emoji_codepoint (n : Nat) : Bool :=
  n == 0x200D ||
  (0x1F600 ≤ n && n ≤ 0x1F64F) || (0x1F300 ≤ n && n ≤ 0x1F5FF) ||
  (0x1F680 ≤ n && n ≤ 0x1F6FF) || (0x1F1E0 ≤ n && n ≤ 0x1F1FF) ||
  (0x2600 ≤ n && n ≤ 0x26FF) || (0x2700 ≤ n && n ≤ 0x27BF) ||
  (0xFE00 ≤ n && n ≤ 0xFE0F) || (0x1F900 ≤ n && n ≤ 0x1F9FF) ||
  (0x1FA00 ≤ n && n ≤ 0x1FA6F) || (0x1FA70 ≤ n && n ≤ 0x1FAFF)

/-- `contains_emoji` from `utils/unicode.py`. -/
def contains_emoji (text : List Char) : Bool :=
  text.any (fun c => is_emoji_codepoint c.toNat)

/-! ## `domains/twentyq/models.py` — the 5-scale answer parser -/

/-- Python prefix test `hay.startswith(needle)` specialised to the use
inside substring search. -/
def startsWithL : List Char → List Char → Bool
  | [], _ => true
  | _ :: _, [] => false
  | a :: as, b :: bs => a == b && startsWithL as bs

/-- Python substring containment `needle in hay`. -/
def occursIn (needle : List Char) : List Char → Bool
  | [] => startsWithL needle []
  | c :: t => startsWithL needle (c :: t) || occursIn needle t

/-- Members of the `AnswerScale` enum, in declaration order. -/
inductive AnswerScale
  | yes
  | probablyYes
  | probablyNo
  | no
  deriving DecidableEq, Repr

/-- Enum literal values: 예, 아마도 예, 아마도 아니오, 아니오. -/
def AnswerScale.value : AnswerScale → List Char
  | .yes => "예".toList
  | .probablyYes => "아마도 예".toList
  | .probablyNo => "아마도 아니오".toList
  | .no => "아니오".toList

/-- Iteration order of `for scale in cls` — the declaration order. -/
def scaleOrder : List AnswerScale :=
  [.yes, .probablyYes, .probablyNo, .no]

/-- `AnswerScale.from_text`: strip the input, then return the first enum
member (in declaration order) whose literal value occurs in the text as
a substring; `None` when no literal occurs. -/
def AnswerScale.from_text (text : List Char) : Option AnswerScale :=
  let t := pyStrip text
  scaleOrder.find? (fun s => occursIn s.value t)

/-! ## `infra/usage_repository.py` — daily usage upsert -/

/-- One row of the `token_usage` table (for a fixed `usage_date`). -/
structure TokenUsageRow where
  input_tokens : Int
  output_tokens : Int
  reasoning_tokens : Int
  request_count : Int
  version : Int
  deriving DecidableEq, Repr

/-- The day's slot of the table: `none` when no row exists for the date. -/
abbrev DayRow := Option TokenUsageRow

/-- `UsageRepository.record_usage`, restricted to a single calendar
date: the early `return` when both input and output are non-positive,
then the `INSERT ... ON CONFLICT (usage_date) DO UPDATE` statement —
insert `(i, o, r, request_count=1, version=0)` when no row exists, else
add the deltas and increment `request_count` and `version` by 1.
Concurrent upserts on one row are serialized by the database, so a
sequence of calls is modelled by iterating this step. -/
def record_usage (st : DayRow)
    (input_tokens output_tokens reasoning_tokens : Int) : DayRow :=
  if input_tokens ≤ 0 ∧ output_tokens ≤ 0 then st
  else
    match st with
    | none => some ⟨input_tokens, output_tokens, reasoning_tokens, 1, 0⟩
    | some row =>
        some ⟨row.input_tokens + input_tokens,
              row.output_tokens + output_tokens,
              row.reasoning_tokens + reasoning_tokens,
              row.request_count + 1,
              row.version + 1⟩

/-- A serialized sequence of `record_usage (a, b, r)` calls. -/
def record_usage_all (st : DayRow) (calls : List (Int × Int × Int)) : DayRow :=
  calls.foldl (fun s c => record_usage s c.1 c.2.1 c.2.2) st

/-! ## `infra/gemini_client.py` — exception translation -/

/-- The provider exception classes distinguished by
`_handle_llm_exception`.  A `ServerError` carries the value of
`getattr(exc, "status_code", None) or getattr(exc, "code", None)` and
whether `"DEADLINE_EXCEEDED"` occurs in `str(exc)`. -/
inductive ProviderExc
  | deadlineExceeded
  | serverError (statusCode : Option Int) (msgHasDeadlineExceeded : Bool)
  | apiError
  | googleAPICallError
  | otherException
  deriving DecidableEq, Repr

/-- The typed errors of the client (`exceptions.py`), each carrying the
`from exc` cause. -/
inductive LLMErr
  | timeoutErr (cause : ProviderExc)
  | modelErr (cause : ProviderExc)
  deriving DecidableEq, Repr

/-- The preserved `__cause__` of a typed error. -/
def LLMErr.cause : LLMErr → ProviderExc
  | .timeoutErr c => c
  | .modelErr c => c

def HTTP_STATUS_GATEWAY_TIMEOUT : Int := 504

/-- `GeminiClient._handle_llm_exception`: classify the exception and
raise the corresponding typed error `from exc`. -/
def handle_llm_exception : ProviderExc → LLMErr
  | .deadlineExceeded => .timeoutErr .deadlineExceeded
  | .serverError status hasDeadlineMsg =>
      if status = some HTTP_STATUS_GATEWAY_TIMEOUT ∨ hasDeadlineMsg then
        .timeoutErr (.serverError status hasDeadlineMsg)
      else
        .modelErr (.serverError status hasDeadlineMsg)
  | .apiError => .modelErr .apiError
  | .googleAPICallError => .modelErr .googleAPICallError
  | .otherException => .modelErr .otherException

/-- What a public client operation lets escape to its caller. -/
inductive Raised
  | provider (e : ProviderExc)
  | llm (e : LLMErr)
  deriving DecidableEq, Repr

/-- `_invoke_with_error_handling`: the enumerated classes and the blind
`except Exception` both route through `_handle_llm_exception`, so every
provider exception is translated. -/
def invoke_with_error_handling {α : Type} :
    Except ProviderExc α → Except Raised α
  | .ok a => .ok a
  | .error e => .error (.llm (handle_llm_exception e))

/-- `GeminiClient.chat`: `llm.ainvoke` wrapped by
`_invoke_with_error_handling`; the argument is the outcome of the
provider call. -/
def chat (outcome : Except ProviderExc (List Char)) :
    Except Raised (List Char) :=
  invoke_with_error_handling outcome

/-- `GeminiClient.chat_structured`: `structured_llm.ainvoke` wrapped by
`_invoke_with_error_handling`. -/
def chat_structured {α : Type} (outcome : Except ProviderExc α) :
    Except Raised α :=
  invoke_with_error_handling outcome

/-- `GeminiClient.stream`: iteration of `llm.astream` wrapped by
`_stream_with_error_handling`, whose handlers also route through
`_handle_llm_exception`; the argument is the iterator's outcome. -/
def stream (outcome : Except ProviderExc (List (List Char))) :
    Except Raised (List (List Char)) :=
  invoke_with_error_handling outcome

/-- `GeminiClient.chat_with_tools`: `llm_with_tools.ainvoke` wrapped by
`_invoke_with_error_handling` (the subsequent tool-call extraction is
pure and elided). -/
def chat_with_tools {α : Type} (outcome : Except ProviderExc α) :
    Except Raised α :=
  invoke_with_error_handling outcome

/-- `GeminiClient.chat_with_usage`: here the source calls
`response = await llm.ainvoke(messages)` directly, without
`_invoke_with_error_handling`, so a provider exception propagates to
the caller untranslated.  (The block/usage parsing on the success path
is pure and elided.) -/
def chat_with_usage {α : Type} (outcome : Except ProviderExc α) :
    Except Raised α :=
  match outcome with
  | .ok a => .ok a
  | .error e => .error (.provider e)

/-! ## `models/guard.py` and `infra/rulepack_loader.py` — rule packs -/

/-- Values delivered by `yaml.safe_load`. -/
inductive YVal
  | str (s : List Char)
  | intV (n : Int)
  | floatV (q : ℚ)
  | boolV (b : Bool)
  | null
  | listV (l : List YVal)
  | dictV (d : List (List Char × YVal))

/-- Python `dict.get(key)` on a YAML mapping (first binding wins, as in
a dict where keys are unique). -/
def yget (d : List (List Char × YVal)) (key : List Char) : Option YVal :=
  (d.find? (fun kv => kv.1 == key)).map (·.2)

/-- Rendering `str(n)` used for normalizer entries; exact for strings,
schematic for the other shapes (never exercised by the claims). -/
def ystr : YVal → List Char
  | .str s => s
  | .intV n => (toString n).toList
  | .floatV _ => "float".toList
  | .boolV b => if b then "True".toList else "False".toList
  | .null => "None".toList
  | .listV _ => "list".toList
  | .dictV _ => "dict".toList

/-- A parsed rule (`RegexRule` / `PhrasesRule` in `models/guard.py`). -/
inductive Rule
  | regexRule (id : List Char) (pattern : List Char) (weight : ℚ)
  | phrasesRule (id : List Char) (phrases : List (List Char)) (weight : ℚ)
  deriving DecidableEq, Repr

/-- `_require_float`: accept `int` or `float` (Python `bool` is an
`int` subclass, `float(True) = 1.0`); anything else — including a
missing value — raises `ValueError`. -/
def require_float (v : Option YVal) : Except (List Char) ℚ :=
  match v with
  | some (.intV n) => .ok (n : ℚ)
  | some (.floatV q) => .ok q
  | some (.boolV b) => .ok (if b then 1 else 0)
  | _ => .error "must be a number".toList

/-- `parse_rule`: dispatch on the `type` field; `regex` requires string
`id` and `pattern` plus a numeric `weight`; `phrases` requires a string
`id`, a list of strings `phrases`, and a numeric `weight`; any other
type raises `ValueError` (message texts abbreviated). -/
def parse_rule (data : List (List Char × YVal)) : Except (List Char) Rule :=
  let ruleType :=
    match yget data "type".toList with
    | some (.str t) => t
    | _ => []
  if ruleType == "regex".toList then
    match yget data "id".toList, yget data "pattern".toList with
    | some (.str i), some (.str p) =>
        (require_float (yget data "weight".toList)).map (Rule.regexRule i p)
    | _, _ => .error "regex rule requires id and pattern".toList
  else if ruleType == "phrases".toList then
    match yget data "id".toList with
    | some (.str i) =>
        match yget data "phrases".toList with
        | some (.listV ps) =>
            match allStrings ps with
            | some phraseList =>
                (require_float (yget data "weight".toList)).map
                  (Rule.phrasesRule i phraseList)
            | none => .error "phrases entries must be strings".toList
        | _ => .error "phrases must be a list".toList
    | _ => .error "phrases rule requires id".toList
  else
    .error "Unknown rule type".toList
where
  /-- The `all(isinstance(p, str) for p in phrases)` check, returning
  the strings when it passes. -/
  allStrings : List YVal → Option (List (List Char))
    | [] => some []
    | .str s :: rest => (allStrings rest).map (s :: ·)
    | _ => none

/-- A parsed `Rulepack`. -/
structure Rulepack where
  version : Int
  threshold : ℚ
  normalizers : List (List Char)
  rules : List Rule
  deriving DecidableEq, Repr

/-- The rule loop of `parse_rulepack`: each entry must be a mapping and
must parse; the first failure propagates as the loop's exception. -/
def parse_rules : List YVal → Except (List Char) (List Rule)
  | [] => .ok []
  | .dictV d :: rest =>
      match parse_rule d with
      | .error e => .error e
      | .ok rule =>
          match parse_rules rest with
          | .error e => .error e
          | .ok more => .ok (rule :: more)
  | _ :: _ => .error "each rule must be an object".toList

/-- `parse_rulepack`: `rules` defaults to `[]` and must be a list; every
rule must parse (a single malformed rule raises out of this function);
`normalizers` defaults when absent or not a list; `version` defaults to
1 and must be an `int` (Python `bool` passes the `isinstance` check);
`threshold` defaults to 0.7 and goes through `_require_float`. -/
def parse_rulepack (data : List (List Char × YVal)) :
    Except (List Char) Rulepack := do
  let rulesRaw ←
    match yget data "rules".toList with
    | none => Except.ok []
    | some (.listV l) => Except.ok l
    | some _ => Except.error "rules must be a list".toList
  let rules ← parse_rules rulesRaw
  let normalizers :=
    match yget data "normalizers".toList with
    | some (.listV l) => l.map ystr
    | _ => ["nfkc".toList, "strip_zero_width".toList]
  let version ←
    match yget data "version".toList with
    | none => Except.ok 1
    | some (.intV n) => Except.ok n
    | some (.boolV b) => Except.ok (if b then 1 else 0)
    | some _ => Except.error "version must be an integer".toList
  let threshold ← require_float
    (match yget data "threshold".toList with
     | none => some (.floatV (7/10))
     | some v => some v)
  .ok ⟨version, threshold, normalizers, rules⟩

/-- Is a YAML value falsy (`bool(v) == False`)?  `safe_load(f) or {}`
replaces such a document with the empty mapping. -/
def yFalsy : YVal → Bool
  | .null => true
  | .boolV b => !b
  | .intV n => n == 0
  | .floatV q => q == 0
  | .str s => s.isEmpty
  | .listV l => l.isEmpty
  | .dictV d => d.isEmpty

/-- `RulepackLoader._load_file` given the document read from one file:
`none` models an `OSError`/`yaml.YAMLError` while reading or parsing;
a falsy document becomes `{}`; a non-mapping raises `ValueError`; a
mapping goes through `parse_rulepack`. -/
def load_file (file : Option YVal) : Except (List Char) Rulepack :=
  match file with
  | none => .error "failed to read file".toList
  | some v =>
      match (if yFalsy v then YVal.dictV [] else v) with
      | .dictV d => parse_rulepack d
      | _ => .error "must contain a mapping".toList

/-- `RulepackLoader.load_from_directory`: each file is loaded inside a
per-file `try`/`except` — a failing file is logged and skipped, and
loading continues with the remaining files. -/
def load_from_directory (files : List (Option YVal)) : List Rulepack :=
  files.filterMap (fun f => (load_file f).toOption)

/-- `RulepackCompiler._build_regexes`, parameterized by the regex
compiler (`re.compile` with `IGNORECASE | UNICODE`, whose result type
`R` is abstract): a regex rule whose pattern fails to compile is logged
and skipped; phrase rules are handled by `_build_automaton`. -/
def build_regexes {R : Type} (compileRegex : List Char → Option R)
    (pack : Rulepack) : List (List Char × R × ℚ) :=
  pack.rules.filterMap (fun r =>
    match r with
    | .regexRule i p w => (compileRegex p).map (fun re => (i, re, w))
    | .phrasesRule _ _ _ => none)

/-- A well-formed regex rule mapping (used as concrete test data). -/
def goodRuleData : List (List Char × YVal) :=
  [("type".toList, .str "regex".toList),
   ("id".toList, .str "r1".toList),
   ("pattern".toList, .str "ignore.*instructions".toList),
   ("weight".toList, .floatV (1/2))]

/-- A malformed rule mapping (unknown `type`). -/
def badRuleData : List (List Char × YVal) :=
  [("type".toList, .str "bogus".toList)]

/-- A pack file holding one well-formed and one malformed rule. -/
def mixedPackData : List (List Char × YVal) :=
  [("version".toList, .intV 1),
   ("threshold".toList, .floatV (8/10)),
   ("rules".toList, .listV [.dictV goodRuleData, .dictV badRuleData])]

/-! ## `infra/korean_nlp.py` — morphological anomaly scoring

Score constants (Python floats) are modelled as exact decimal
rationals; every constant the claims mention (0, 0.5, 0.8) is exact in
both representations. -/

/-- A token of the morphological analysis. -/
structure NlpToken where
  form : List Char
  tag : List Char
  position : Nat
  length : Nat
  deriving DecidableEq, Repr

/-- `_is_unknown_tag`: tag is `UN` or starts with `UNK`. -/
def is_unknown_tag (tag : List Char) : Bool :=
  tag == "UN".toList || startsWithL "UNK".toList tag

/-- `_is_content_tag`: noun / verb / adjective prefixes or the numeral
tag `NR`. -/
def is_content_tag (tag : List Char) : Bool :=
  startsWithL "NN".toList tag || startsWithL "VV".toList tag ||
  startsWithL "VA".toList tag || tag == "NR".toList

/-- `score_unknown_tokens`: thresholds on the unknown-token fraction. -/
def score_unknown_tokens (tokens : List NlpToken) : ℚ :=
  if tokens.isEmpty then 0
  else
    let frac : ℚ := (tokens.countP (fun t => is_unknown_tag t.tag) : ℚ) / tokens.length
    if frac > 6/10 then 4/10
    else if frac > 4/10 then 3/10
    else if frac > 2/10 then 1/10
    else 0

/-- `score_token_length`: thresholds on the mean token length. -/
def score_token_length (tokens : List NlpToken) : ℚ :=
  if tokens.isEmpty then 0
  else
    let avg : ℚ := ((tokens.map (·.length)).sum : ℚ) / tokens.length
    if avg < 6/10 then 3/10
    else if avg < 8/10 then 2/10
    else if avg < 1 then 1/10
    else 0

/-- The class `[ㄱ-ㅎㅏ-ㅣ]` of `INCOMPLETE_HANGUL_PATTERN`
(U+3131–U+314E and U+314F–U+3163 are contiguous). -/
def is_compat_jamo_letter (c : Char) : Bool :=
  0x3131 ≤ c.toNat && c.toNat ≤ 0x3163

/-- The class `[ㅋㅎ]` of `EMOTICON_PATTERN`. -/
def is_laugh_char (c : Char) : Bool :=
  c == 'ㅋ' || c == 'ㅎ'

/-- Does the list contain two adjacent characters of the class (the
`{2,}` quantifier under `re.search`)? -/
def has_two_contiguous (p : Char → Bool) : List Char → Bool
  | [] => false
  | [_] => false
  | a :: b :: rest => (p a && p b) || has_two_contiguous p (b :: rest)

/-- `EMOTICON_PATTERN.match` with pattern `.*[ㅋㅎ]{2,}.*` anchored at
the start and `.` not matching newlines: it succeeds iff a run of two
adjacent laugh characters occurs before the first newline. -/
def emoticon_match (text : List Char) : Bool :=
  has_two_contiguous is_laugh_char (text.takeWhile (fun c => c != '\n'))

/-- `score_incomplete_hangul`: standalone-jamo runs outside emoticons,
modulated by the fraction of composed syllables (`"가" <= c <= "힣"`). -/
def score_incomplete_hangul (text : List Char) : ℚ :=
  if text.isEmpty then 0
  else
    let frac : ℚ := (text.countP isHangulSyllable : ℚ) / text.length
    let hasIncomplete := has_two_contiguous is_compat_jamo_letter text
    let isEmoticon := emoticon_match text
    if hasIncomplete && !isEmoticon then
      if frac < 2/10 then 2/10
      else if frac < 4/10 then 1/10
      else 0
    else 0

/-- `score_content_ratio`: with more than 3 tokens, a content-word
fraction below 0.15 adds 0.15. -/
def score_content_words (tokens : List NlpToken) : ℚ :=
  if tokens.length ≤ 3 then 0
  else
    let frac : ℚ := (tokens.countP (fun t => is_content_tag t.tag) : ℚ) / tokens.length
    if frac < 15/100 then 15/100 else 0

def DEFAULT_ANOMALY_SCORE : ℚ := 5/10
def EMPTY_TOKEN_ANOMALY_SCORE : ℚ := 8/10
def MIN_TEXT_LENGTH_FOR_ANOMALY : Nat := 3

/-- `KoreanNlpService.analyze`, parameterized by the tokenizer
(`kiwi.tokenize`; `none` models a raised exception): empty or
whitespace-only input returns `[]` up front, and a tokenizer failure is
caught inside `analyze` itself, also returning `[]`. -/
def analyze (tokenize : List Char → Option (List NlpToken))
    (text : List Char) : List NlpToken :=
  if text.isEmpty || (pyStrip text).isEmpty then []
  else
    match tokenize text with
    | some toks => toks
    | none => []

/-- `calculate_anomaly_score`: length guard, then the four signals
summed and clamped to [0, 1].  The `except` fallback returning
`DEFAULT_ANOMALY_SCORE` guards only the scoring block; since `analyze`
already swallows tokenizer failures (returning `[]`), the block is
total here and a tokenizer failure surfaces as the empty token list,
scored `EMPTY_TOKEN_ANOMALY_SCORE`. -/
def calculate_anomaly_score (tokenize : List Char → Option (List NlpToken))
    (text : List Char) : ℚ :=
  if text.length < MIN_TEXT_LENGTH_FOR_ANOMALY then 0
  else
    let tokens := analyze tokenize text
    if tokens.isEmpty then EMPTY_TOKEN_ANOMALY_SCORE
    else
      let score := score_unknown_tokens tokens + score_token_length tokens +
        score_incomplete_hangul text + score_content_words tokens
      min (max score 0) 1

/-! ## `infra/injection_guard.py` — guard evaluation -/

/-- A rule hit (`GuardMatch` in `models/guard.py`). -/
structure GuardMatch where
  id : List Char
  weight : ℚ
  deriving DecidableEq, Repr

/-- The result record (`GuardEvaluation`). -/
structure GuardEvaluation where
  score : ℚ
  hits : List GuardMatch
  threshold : ℚ
  deriving DecidableEq, Repr

/-- `InjectionGuard._compute_anomaly`, given the installed scorer's
outcome on the input: `none` — no scorer installed; `some (.error ())`
— the scorer raised (caught, contributes zero); `some (.ok v)` — the
scorer returned `v`.  Only a value strictly above the anomaly threshold
is returned with its synthetic hit; otherwise control falls through to
`return 0.0, None`. -/
def compute_anomaly (anomalyThreshold : ℚ)
    (scorerOutcome : Option (Except Unit ℚ)) : ℚ × Option GuardMatch :=
  match scorerOutcome with
  | none => (0, none)
  | some (.error _) => (0, none)
  | some (.ok v) =>
      if v > anomalyThreshold then
        (v, some ⟨"morphological_anomaly".toList, v⟩)
      else (0, none)

/-- `InjectionGuard._evaluate_internal`: jamo-only and emoji
short-circuits, then pack scoring over the normalized text plus the
anomaly contribution.  `threshold` is the value of `_get_threshold`;
`evalPacks` stands for `_evaluate_packs` (the regex and Aho-Corasick
machinery, abstract here) and `normalize` for `normalize_text`. -/
def evaluate_internal (threshold anomalyThreshold : ℚ)
    (evalPacks : List Char → ℚ × List GuardMatch)
    (normalize : List Char → List Char)
    (scorerOutcome : Option (Except Unit ℚ))
    (text : List Char) : GuardEvaluation :=
  if is_jamo_only text then
    ⟨threshold, [⟨"jamo_only".toList, threshold⟩], threshold⟩
  else if contains_emoji text then
    ⟨threshold, [⟨"emoji_detected".toList, threshold⟩], threshold⟩
  else
    let base := evalPacks (normalize text)
    let anomaly := compute_anomaly anomalyThreshold scorerOutcome
    ⟨base.1 + anomaly.1, base.2 ++ anomaly.2.toList, threshold⟩

/-! ## `infra/langgraph_session.py` — session TTL semantics

Timestamps are abstract instants (`Nat`); the TTL is an `Int` in the
same unit (`session_ttl_minutes` may be configured non-positive). -/

/-- `GraphSession` metadata (the `domain_data` sidecar is elided). -/
structure GraphSession where
  session_id : List Char
  model : List Char
  system_prompt : Option (List Char)
  created_at : Nat
  last_accessed : Nat
  deriving DecidableEq, Repr

/-- The manager's metadata table, keyed like a Python dict (unique
keys, insertion order). -/
structure SessionManager where
  sessions : List (List Char × GraphSession)
  session_ttl : Int
  max_sessions : Nat
  deriving Repr

/-- `_is_expired`: false when the TTL is non-positive, else
`now - last_accessed > ttl`. -/
def is_expired (ttl : Int) (s : GraphSession) (now : Nat) : Bool :=
  if ttl ≤ 0 then false
  else (now : Int) - (s.last_accessed : Int) > ttl

/-- `_prune_expired`: with positive TTL, delete every expired session
and return their ids (the per-session `clear_history` call touches only
the checkpoint store, not this table). -/
def prune_expired (m : SessionManager) (now : Nat) :
    SessionManager × List (List Char) :=
  if m.session_ttl ≤ 0 then (m, [])
  else
    let expired := (m.sessions.filter
      (fun p => is_expired m.session_ttl p.2 now)).map (·.1)
    ({ m with sessions := (m.sessions.filter
        (fun p => !is_expired m.session_ttl p.2 now)) }, expired)

/-- Dict lookup `self._sessions.get(session_id)`. -/
def lookup_session (m : SessionManager) (id : List Char) :
    Option GraphSession :=
  (m.sessions.find? (fun p => p.1 == id)).map (·.2)

/-- Refresh `last_accessed` of the stored record. -/
def refresh_session (m : SessionManager) (id : List Char) (now : Nat) :
    SessionManager :=
  { m with sessions := m.sessions.map (fun p =>
      if p.1 == id then (p.1, { p.2 with last_accessed := now }) else p) }

/-- `get_session`: prune first; raise session-expired when this id was
among the pruned; else refresh `last_accessed` and return the record,
or `None` when absent.  The pair carries the table state after the
call (mutations happen before the raise in the source). -/
def get_session (m : SessionManager) (now : Nat) (id : List Char) :
    Except Unit (Option GraphSession) × SessionManager :=
  let pruned := prune_expired m now
  if id ∈ pruned.2 then (.error (), pruned.1)
  else
    match lookup_session pruned.1 id with
    | some s => (.ok (some { s with last_accessed := now }),
                 refresh_session pruned.1 id now)
    | none => (.ok none, pruned.1)

/-! ## `infra/bot_health_monitor.py` — restart policy -/

/-- A probe target. -/
structure BotHealthTarget where
  name : List Char
  url : List Char
  restart_containers : List (List Char)
  deriving DecidableEq, Repr

/-- The monitor configuration fields used by the restart path. -/
structure BotHealthConfig where
  restart_cmd : List (List Char)
  docker_socket : List Char
  max_failures : Nat
  deriving DecidableEq, Repr

/-- Externally observable restart actions, in order. -/
inductive RestartAction
  | runRestartCmd (cmd : List (List Char))
  | dockerRestart (container : List Char)
  deriving DecidableEq, Repr

/-- The environment's answers: filesystem existence
(`Path(...).exists()`), and the outcomes of the two `subprocess.run`
call sites.  `subprocess.run(..., check=False)` returns an exit code
when the executable starts, but raises (`FileNotFoundError` for a
command absent from `PATH`, `PermissionError` for a non-executable
file, other `OSError`s) when it cannot be started at all — `.error ()`
models such a raise. -/
structure RestartEnv where
  path_exists : List Char → Bool
  run_restart_cmd : Except Unit Int
  run_docker_post : List Char → Except Unit Bool

/-- `PurePosixPath.is_absolute()` for the command's first element. -/
def is_absolute_path (p : List Char) : Bool :=
  p.head? == some '/'

/-- The per-container loop of `_restart_containers_via_docker`: invoke
the control-socket POST for each container in order, accumulating
whether any succeeded; a raising `subprocess.run` (e.g. `curl` itself
missing) aborts the loop and propagates.  The action trace records the
invocations that actually executed. -/
def docker_loop (env : RestartEnv) :
    List (List Char) → Except Unit Bool × List RestartAction
  | [] => (.ok false, [])
  | ctr :: rest =>
      match env.run_docker_post ctr with
      | .error e => (.error e, [])
      | .ok ok1 =>
          match docker_loop env rest with
          | (.error e, acts) => (.error e, .dockerRestart ctr :: acts)
          | (.ok okRest, acts) => (.ok (ok1 || okRest), .dockerRestart ctr :: acts)

/-- `_restart_containers_via_docker`: no containers or a missing
control socket → no attempt (returns false); otherwise run the POST
loop. -/
def restart_containers_via_docker (cfg : BotHealthConfig)
    (env : RestartEnv) (containers : List (List Char)) :
    Except Unit Bool × List RestartAction :=
  if containers.isEmpty then (.ok false, [])
  else if !(env.path_exists cfg.docker_socket) then (.ok false, [])
  else docker_loop env containers

/-- `_restart`: with no restart command configured, go straight to the
container path (a raise there propagates; `if not restarted` only
logs).  With a command configured: when its first element is an
absolute path that does not exist, log and return — no command run and
no container fallback; otherwise invoke the command — a raising
`subprocess.run` propagates out of `_restart` with no fallback, and of
a completed run only a non-zero exit code falls back to the container
path (whose own raise also propagates). -/
def restart (cfg : BotHealthConfig) (env : RestartEnv)
    (target : BotHealthTarget) : Except Unit Unit × List RestartAction :=
  match cfg.restart_cmd with
  | [] =>
      match restart_containers_via_docker cfg env target.restart_containers with
      | (.error e, acts) => (.error e, acts)
      | (.ok _, acts) => (.ok (), acts)
  | first :: _ =>
      if is_absolute_path first && !(env.path_exists first) then (.ok (), [])
      else
        match env.run_restart_cmd with
        | .error e => (.error e, [])
        | .ok code =>
            if code ≠ 0 then
              match restart_containers_via_docker cfg env
                  target.restart_containers with
              | (.error e, acts) =>
                  (.error e, RestartAction.runRestartCmd cfg.restart_cmd :: acts)
              | (.ok _, acts) =>
                  (.ok (), RestartAction.runRestartCmd cfg.restart_cmd :: acts)
            else (.ok (), [RestartAction.runRestartCmd cfg.restart_cmd])

/-- One target's slice of the probe loop body in `_run`: success resets
the counter; failure increments it; on reaching `max_failures` the
restart runs and the counter is set to 0 afterwards — but only when
`_restart` returns: a raise skips the reset at line 185 and is caught
by the loop's `except Exception` at line 188, leaving the incremented
counter in place. -/
def probe_step (cfg : BotHealthConfig) (env : RestartEnv)
    (target : BotHealthTarget) (failures : Nat) (healthy : Bool) :
    Nat × List RestartAction :=
  if healthy then (0, [])
  else
    let f := failures + 1
    if cfg.max_failures ≤ f then
      match restart cfg env target with
      | (.error _, acts) => (f, acts)
      | (.ok _, acts) => (0, acts)
    else (f, [])

/-! ## Helper lemmas -/

/-- Folding `record_usage` from an existing row over calls that all pass
the non-positivity guard adds the componentwise sums and bumps
`request_count` and `version` by the number of calls. -/
lemma record_usage_all_from_row :
    ∀ (calls : List (Int × Int × Int)) (row : TokenUsageRow),
      (∀ c ∈ calls, 0 < c.1 ∨ 0 < c.2.1) →
      record_usage_all (some row) calls =
        some ⟨row.input_tokens + (calls.map (·.1)).sum,
              row.output_tokens + (calls.map (·.2.1)).sum,
              row.reasoning_tokens + (calls.map (·.2.2)).sum,
              row.request_count + calls.length,
              row.version + calls.length⟩ := by
  intro calls
  induction calls with
  | nil => intro row _; simp [record_usage_all]
  | cons c rest ih =>
      intro row hpos
      have hc : 0 < c.1 ∨ 0 < c.2.1 := hpos c (List.mem_cons_self c rest)
      have hguard : ¬ (c.1 ≤ 0 ∧ c.2.1 ≤ 0) := by omega
      have hstep : record_usage (some row) c.1 c.2.1 c.2.2 =
          some ⟨row.input_tokens + c.1, row.output_tokens + c.2.1,
                row.reasoning_tokens + c.2.2, row.request_count + 1,
                row.version + 1⟩ := by
        simp [record_usage, hguard]
      have hrest : ∀ d ∈ rest, 0 < d.1 ∨ 0 < d.2.1 :=
        fun d hd => hpos d (List.mem_cons_of_mem c hd)
      have := ih ⟨row.input_tokens + c.1, row.output_tokens + c.2.1,
                  row.reasoning_tokens + c.2.2, row.request_count + 1,
                  row.version + 1⟩ hrest
      simp only [record_usage_all, List.foldl_cons] at this ⊢
      rw [hstep]
      rw [this]
      congr 1
      simp
      refine ⟨by ring, by ring, by ring, by ring, by ring⟩

/-! ## Claims -/

/-- C1 (counterexample).  Two `record_usage` calls `(10, 5, 0)` and
`(3, 2, 1)` against an empty day leave counters in=13, out=7,
reasoning=1 and requests=2 as the claim states, but the version column
is 1, not 2: the initial `INSERT` writes `version = 0` and only the
conflict update increments it. -/
theorem usage_upsert_version_counterexample :
    record_usage_all none [(10, 5, 0), (3, 2, 1)] =
      some ⟨13, 7, 1, 2, 1⟩ ∧
    (record_usage_all none [(10, 5, 0), (3, 2, 1)]).map TokenUsageRow.version ≠
      some 2 := by
  constructor
  · rfl
  · decide

/-- C1 (amended).  For K serialized `record_usage (a_i, b_i, r_i)` calls
on a fresh day, each passing the non-positivity guard, the final row's
counters are the componentwise sums, its request count is K, and its
version is K − 1 (the first insert writes version 0; each subsequent
conflict update adds 1). -/
theorem usage_upsert_fresh_day_totals
    (calls : List (Int × Int × Int))
    (hne : calls ≠ [])
    (hpos : ∀ c ∈ calls, 0 < c.1 ∨ 0 < c.2.1) :
    record_usage_all none calls =
      some ⟨(calls.map (·.1)).sum, (calls.map (·.2.1)).sum,
            (calls.map (·.2.2)).sum, (calls.length : Int),
            (calls.length : Int) - 1⟩ := by
  cases calls with
  | nil => exact absurd rfl hne
  | cons c rest =>
      have hc : 0 < c.1 ∨ 0 < c.2.1 := hpos c (List.mem_cons_self c rest)
      have hguard : ¬ (c.1 ≤ 0 ∧ c.2.1 ≤ 0) := by omega
      have hstep : record_usage none c.1 c.2.1 c.2.2 =
          some ⟨c.1, c.2.1, c.2.2, 1, 0⟩ := by
        simp [record_usage, hguard]
      have hrest : ∀ d ∈ rest, 0 < d.1 ∨ 0 < d.2.1 :=
        fun d hd => hpos d (List.mem_cons_of_mem c hd)
      have hfold := record_usage_all_from_row rest ⟨c.1, c.2.1, c.2.2, 1, 0⟩ hrest
      simp only [record_usage_all, List.foldl_cons] at hfold ⊢
      rw [hstep, hfold]
      simp only [Option.some.injEq, TokenUsageRow.mk.injEq, List.map_cons,
        List.sum_cons, List.length_cons]
      refine ⟨by ring, by ring, by ring, by push_cast; ring, by push_cast; ring⟩

/-- C1 (witness): the two-call scenario instantiating the amended
theorem. -/
theorem usage_upsert_fresh_day_totals_witness :
    record_usage_all none [(10, 5, 0), (3, 2, 1)] =
      some ⟨13, 7, 1, 2, 1⟩ := by
  have h := usage_upsert_fresh_day_totals [(10, 5, 0), (3, 2, 1)]
    (by decide) (by decide)
  simpa using h

/-- C10.  `record_usage` is a complete no-op whenever both the input
and the output token counts are non-positive: the day's row is
unchanged (so request count and version are too), even when the
reasoning count is positive. -/
theorem record_usage_nonpositive_noop
    (st : DayRow) (input_tokens output_tokens reasoning_tokens : Int)
    (hin : input_tokens ≤ 0) (hout : output_tokens ≤ 0) :
    record_usage st input_tokens output_tokens reasoning_tokens = st := by
  simp [record_usage, hin, hout]

/-- C10 (witness): a reasoning-only call against an existing row is
dropped. -/
theorem record_usage_nonpositive_noop_witness :
    record_usage (some ⟨1, 2, 3, 4, 5⟩) 0 (-1) 7 = some ⟨1, 2, 3, 4, 5⟩ :=
  record_usage_nonpositive_noop (some ⟨1, 2, 3, 4, 5⟩) 0 (-1) 7
    (by decide) (by decide)

/-- C2 (counterexample).  `chat_with_usage` invokes the model without
`_invoke_with_error_handling`: a `DeadlineExceeded` raised by the
provider propagates to the caller as the provider's own exception type
rather than as a typed LLM error. -/
theorem chat_with_usage_leak_counterexample :
    chat_with_usage (α := Unit) (.error .deadlineExceeded) =
      .error (.provider .deadlineExceeded) := by
  rfl

/-- C2 (amended).  `chat`, `chat_structured`, `stream` and
`chat_with_tools` translate every provider exception through
`_handle_llm_exception` into a typed LLM error whose cause is the
original exception; `chat_with_usage` alone lacks the wrapper and
propagates the provider exception unchanged. -/
theorem client_exception_translation (e : ProviderExc) :
    chat (.error e) = .error (.llm (handle_llm_exception e)) ∧
    chat_structured (α := Unit) (.error e) =
      .error (.llm (handle_llm_exception e)) ∧
    stream (.error e) = .error (.llm (handle_llm_exception e)) ∧
    chat_with_tools (α := Unit) (.error e) =
      .error (.llm (handle_llm_exception e)) ∧
    (handle_llm_exception e).cause = e ∧
    chat_with_usage (α := Unit) (.error e) = .error (.provider e) := by
  refine ⟨rfl, rfl, rfl, rfl, ?_, rfl⟩
  cases e with
  | serverError status msg =>
      by_cases h : status = some HTTP_STATUS_GATEWAY_TIMEOUT ∨ msg = true
      · simp [handle_llm_exception, h, LLMErr.cause]
      · simp only [handle_llm_exception]
        rw [if_neg (by simpa using h)]
        rfl
  | deadlineExceeded => rfl
  | apiError => rfl
  | googleAPICallError => rfl
  | otherException => rfl

/-- C5 (counterexample).  A tokenizer failure on a text of length 3 is
swallowed inside `analyze` (which returns `[]`), so
`calculate_anomaly_score` lands on the empty-token branch and returns
0.8, not the claimed fixed fallback 0.5. -/
theorem anomaly_tokenizer_failure_counterexample :
    calculate_anomaly_score (fun _ => none) "abc".toList =
      EMPTY_TOKEN_ANOMALY_SCORE ∧
    calculate_anomaly_score (fun _ => none) "abc".toList ≠
      DEFAULT_ANOMALY_SCORE := by
  have h : calculate_anomaly_score (fun _ => none) "abc".toList =
      EMPTY_TOKEN_ANOMALY_SCORE := rfl
  refine ⟨h, ?_⟩
  rw [h]
  norm_num [EMPTY_TOKEN_ANOMALY_SCORE, DEFAULT_ANOMALY_SCORE]

/-- C5 (amended).  `calculate_anomaly_score` returns 0 for every text
shorter than 3 characters; when tokenization of a text of length ≥ 3
fails, `analyze` swallows the failure into an empty token list and the
score is the fixed `EMPTY_TOKEN_ANOMALY_SCORE = 0.8` (the 0.5 fallback
guards only the scoring block itself, which cannot be reached by a
tokenizer failure). -/
theorem anomaly_score_guard_and_failure
    (tokenize : List Char → Option (List NlpToken)) (text : List Char) :
    (text.length < 3 → calculate_anomaly_score tokenize text = 0) ∧
    (3 ≤ text.length → tokenize text = none →
      calculate_anomaly_score tokenize text = EMPTY_TOKEN_ANOMALY_SCORE) := by
  constructor
  · intro hlen
    simp [calculate_anomaly_score, MIN_TEXT_LENGTH_FOR_ANOMALY, hlen]
  · intro hlen hfail
    have hnotshort : ¬ text.length < MIN_TEXT_LENGTH_FOR_ANOMALY := by
      simp [MIN_TEXT_LENGTH_FOR_ANOMALY]; omega
    have hanalyze : analyze tokenize text = [] := by
      unfold analyze
      split
      · rfl
      · rw [hfail]
    simp [calculate_anomaly_score, hnotshort, hanalyze]

/-- C5 (witness): the length guard at a 2-character text and the
failure path at a 3-character text. -/
theorem anomaly_score_guard_and_failure_witness :
    calculate_anomaly_score (fun _ => none) "ab".toList = 0 ∧
    calculate_anomaly_score (fun _ => none) "abc".toList =
      EMPTY_TOKEN_ANOMALY_SCORE := by
  constructor
  · exact (anomaly_score_guard_and_failure (fun _ => none) "ab".toList).1
      (by decide)
  · exact (anomaly_score_guard_and_failure (fun _ => none) "abc".toList).2
      (by decide) rfl

lemma except_bind_ok {α β γ : Type} (a : α) (f : α → Except γ β) :
    (Except.ok a >>= f) = f a := rfl

lemma except_bind_error {α β γ : Type} (e : γ) (f : α → Except γ β) :
    ((Except.error e : Except γ α) >>= f) = .error e := rfl

/-- If some entry of the rule list is a mapping that fails `parse_rule`,
the rule loop of `parse_rulepack` raises. -/
lemma parse_rules_error :
    ∀ (rs : List YVal) (d : List (List Char × YVal)),
      YVal.dictV d ∈ rs → (parse_rule d).toOption = none →
      ∃ e, parse_rules rs = .error e := by
  intro rs
  induction rs with
  | nil => intro d hmem _; cases hmem
  | cons y rest ih =>
      intro d hmem hbad
      cases y with
      | dictV d' =>
          rcases List.mem_cons.mp hmem with heq | hmem'
          · have hdd : d = d' := by injection heq
            subst hdd
            cases hp : parse_rule d with
            | ok r => rw [hp] at hbad; simp [Except.toOption] at hbad
            | error e => exact ⟨e, by simp [parse_rules, hp]⟩
          · obtain ⟨e, he⟩ := ih d hmem' hbad
            cases hp : parse_rule d' with
            | ok r => exact ⟨e, by simp [parse_rules, hp, he]⟩
            | error e' => exact ⟨e', by simp [parse_rules, hp]⟩
      | str s =>
          rcases List.mem_cons.mp hmem with heq | hmem'
          · cases heq
          · exact ⟨_, rfl⟩
      | intV n =>
          rcases List.mem_cons.mp hmem with heq | hmem'
          · cases heq
          · exact ⟨_, rfl⟩
      | floatV q =>
          rcases List.mem_cons.mp hmem with heq | hmem'
          · cases heq
          · exact ⟨_, rfl⟩
      | boolV b =>
          rcases List.mem_cons.mp hmem with heq | hmem'
          · cases heq
          · exact ⟨_, rfl⟩
      | null =>
          rcases List.mem_cons.mp hmem with heq | hmem'
          · cases heq
          · exact ⟨_, rfl⟩
      | listV l =>
          rcases List.mem_cons.mp hmem with heq | hmem'
          · cases heq
          · exact ⟨_, rfl⟩

/-- C3 (counterexample).  A pack file containing one well-formed regex
rule and one malformed rule (`type: bogus`): `parse_rulepack` raises on
the malformed rule, so loading yields no compiled pack at all — the
well-formed rule is not preserved, the whole pack file is skipped. -/
theorem rulepack_mixed_pack_counterexample :
    (parse_rule goodRuleData).toOption =
      some (.regexRule "r1".toList "ignore.*instructions".toList (1/2)) ∧
    (parse_rulepack mixedPackData).toOption = none ∧
    load_from_directory [some (.dictV mixedPackData)] = [] := by
  refine ⟨rfl, rfl, rfl⟩

/-- C3 (amended).  A single malformed rule definition makes
`parse_rulepack` raise, so the offending pack file as a whole is
skipped; `load_from_directory` catches the failure per file and
continues with the remaining files, never aborting.  (Only regex rules
whose pattern fails to compile are skipped individually, later, in
`_build_regexes`.) -/
theorem rulepack_malformed_rule_skips_pack
    (files : List (Option YVal)) (f : Option YVal)
    (rs : List YVal) (d data : List (List Char × YVal))
    (hmem : YVal.dictV d ∈ rs)
    (hbad : (parse_rule d).toOption = none)
    (hdata : yget data "rules".toList = some (.listV rs)) :
    load_from_directory (f :: files) =
      (load_file f).toOption.toList ++ load_from_directory files ∧
    (parse_rulepack data).toOption = none := by
  constructor
  · simp only [load_from_directory, List.filterMap_cons]
    cases h : (load_file f).toOption with
    | none => simp
    | some p => simp
  · obtain ⟨e, he⟩ := parse_rules_error rs d hmem hbad
    simp only [parse_rulepack]
    rw [hdata]
    simp only [except_bind_ok, he, except_bind_error, Except.toOption]

/-- C3 (witness): the mixed pack, loaded alongside a second (failing)
file. -/
theorem rulepack_malformed_rule_skips_pack_witness :
    load_from_directory [some (.dictV mixedPackData), none] =
      (load_file (some (.dictV mixedPackData))).toOption.toList ++
        load_from_directory [none] ∧
    (parse_rulepack mixedPackData).toOption = none := by
  exact rulepack_malformed_rule_skips_pack [none] (some (.dictV mixedPackData))
    [.dictV goodRuleData, .dictV badRuleData] badRuleData mixedPackData
    (by simp) rfl rfl

/-- C4 (counterexample).  With a scorer installed and the rule-pack
path reached (no jamo-only or emoji short-circuit), a sub-threshold
scorer value contributes nothing: with anomaly threshold 0.5 and scorer
value 0.3 over empty packs, the total score is 0, not the claimed 0.3. -/
theorem guard_subthreshold_anomaly_counterexample :
    evaluate_internal (7/10) (1/2) (fun _ => (0, [])) id
        (some (.ok (3/10))) "hello".toList =
      ⟨0, [], 7/10⟩ ∧
    (evaluate_internal (7/10) (1/2) (fun _ => (0, [])) id
        (some (.ok (3/10))) "hello".toList).score ≠ 3/10 := by
  have hjamo : ¬ (is_jamo_only "hello".toList = true) := by decide
  have hemoji : ¬ (contains_emoji "hello".toList = true) := by decide
  have hlt : ¬ ((3 : ℚ)/10 > 1/2) := by norm_num
  have heval : evaluate_internal (7/10) (1/2) (fun _ => (0, [])) id
      (some (.ok (3/10))) "hello".toList = ⟨0, [], 7/10⟩ := by
    simp only [evaluate_internal]
    rw [if_neg hjamo, if_neg hemoji]
    simp only [compute_anomaly]
    rw [if_neg hlt]
    simp
  refine ⟨heval, ?_⟩
  rw [heval]
  norm_num

/-- C4 (amended).  When evaluation reaches rule-pack scoring and the
installed scorer returns `v`, the scorer's value is added to the total
and the synthetic `morphological_anomaly` hit is appended exactly when
`v` strictly exceeds the anomaly threshold; otherwise the scorer
contributes 0 and no hit. -/
theorem guard_anomaly_threshold_gating
    (threshold anomalyThreshold v : ℚ)
    (evalPacks : List Char → ℚ × List GuardMatch)
    (normalize : List Char → List Char) (text : List Char)
    (hjamo : is_jamo_only text = false)
    (hemoji : contains_emoji text = false) :
    evaluate_internal threshold anomalyThreshold evalPacks normalize
        (some (.ok v)) text =
      ⟨(evalPacks (normalize text)).1 +
          (if anomalyThreshold < v then v else 0),
       (evalPacks (normalize text)).2 ++
          (if anomalyThreshold < v then
            [⟨"morphological_anomaly".toList, v⟩] else []),
       threshold⟩ := by
  simp only [evaluate_internal, hjamo, hemoji, Bool.false_eq_true,
    if_false, compute_anomaly]
  split
  · simp
  · simp

/-- C4 (witness): a sub-threshold scorer value over empty packs. -/
theorem guard_anomaly_threshold_gating_witness :
    evaluate_internal (7/10) (1/2) (fun _ => (0, [])) id
        (some (.ok (3/10))) "hello".toList = ⟨0 + 0, [] ++ [], 7/10⟩ := by
  have hlt : ¬ ((1 : ℚ)/2 < 3/10) := by norm_num
  have h := guard_anomaly_threshold_gating (7/10) (1/2) (3/10)
    (fun _ => (0, [])) id "hello".toList (by decide) (by decide)
  simp only [if_neg hlt] at h
  exact h

/-- C8 (counterexample).  Two refutations of the claimed behaviour.
First, with a restart command whose executable is an absolute path that
does not exist, `_restart` logs and returns immediately: the configured
container is never restarted via the control socket even though the
socket exists.  Second, with a relative command whose `subprocess.run`
raises (absent from `PATH`), the exception propagates: no docker
fallback runs and the counter is NOT reset to 0 — it keeps its
incremented value 3. -/
theorem restart_missing_executable_counterexample :
    restart ⟨["/usr/local/bin/restart-bots".toList],
             "/var/run/docker.sock".toList, 3⟩
        ⟨fun p => p == "/var/run/docker.sock".toList, .ok 0,
         fun _ => .ok true⟩
        ⟨"bot-a".toList, "http://bot-a:3000/health".toList,
         ["bot-a".toList]⟩ = (.ok (), []) ∧
    ([] : List RestartAction) ≠
      [RestartAction.dockerRestart "bot-a".toList] ∧
    probe_step ⟨["docker-compose".toList, "restart".toList],
                "/var/run/docker.sock".toList, 3⟩
        ⟨fun p => p == "/var/run/docker.sock".toList, .error (),
         fun _ => .ok true⟩
        ⟨"bot-a".toList, "http://bot-a:3000/health".toList,
         ["bot-a".toList]⟩ 2 false = (3, []) ∧
    (3 : Nat) ≠ 0 := by
  refine ⟨rfl, by decide, rfl, by decide⟩

/-- C8 (amended).  On reaching the failure threshold with a restart
command configured: when the command's first element is an absolute
path that does not exist, the restart is skipped entirely (no command
run, no container fallback); when `subprocess.run` raises because the
command cannot be started (e.g. a relative command absent from `PATH`),
the exception propagates out of `_restart` with no container fallback;
when the command runs to completion, only a non-zero exit code falls
back to restarting the configured containers via the control socket.
The failure counter is reset to 0 after the restart attempt only when
`_restart` returns without raising; a raise is caught by the loop's
blanket handler and the reset is skipped, leaving the incremented
counter. -/
theorem restart_policy_and_counter_reset
    (cfg : BotHealthConfig) (env : RestartEnv) (target : BotHealthTarget)
    (first : List Char) (rest : List (List Char)) (failures : Nat) :
    (cfg.restart_cmd = first :: rest → is_absolute_path first = true →
      env.path_exists first = false →
      restart cfg env target = (.ok (), [])) ∧
    (cfg.restart_cmd = first :: rest →
      (is_absolute_path first = false ∨ env.path_exists first = true) →
      ∀ e, env.run_restart_cmd = .error e →
        restart cfg env target = (.error e, [])) ∧
    (cfg.restart_cmd = first :: rest →
      (is_absolute_path first = false ∨ env.path_exists first = true) →
      ∀ code, env.run_restart_cmd = .ok code → code ≠ 0 →
        restart cfg env target =
          ((restart_containers_via_docker cfg env
              target.restart_containers).1.map (fun _ => ()),
           RestartAction.runRestartCmd cfg.restart_cmd ::
             (restart_containers_via_docker cfg env
               target.restart_containers).2)) ∧
    (cfg.restart_cmd = first :: rest →
      (is_absolute_path first = false ∨ env.path_exists first = true) →
      env.run_restart_cmd = .ok 0 →
      restart cfg env target =
        (.ok (), [RestartAction.runRestartCmd cfg.restart_cmd])) ∧
    (cfg.max_failures ≤ failures + 1 →
      probe_step cfg env target failures false =
        (match (restart cfg env target).1 with
         | .ok _ => 0
         | .error _ => failures + 1,
         (restart cfg env target).2)) := by
  refine ⟨?_, ?_, ?_, ?_, ?_⟩
  · intro hcmd habs hmiss
    simp [restart, hcmd, habs, hmiss]
  · intro hcmd hrun e hraise
    have hnot : ¬ (is_absolute_path first && !(env.path_exists first)) = true := by
      rcases hrun with h | h <;> simp [h]
    simp [restart, hcmd, hnot, hraise]
  · intro hcmd hrun code hcode hne
    have hnot : ¬ (is_absolute_path first && !(env.path_exists first)) = true := by
      rcases hrun with h | h <;> simp [h]
    rcases hdock : restart_containers_via_docker cfg env
        target.restart_containers with ⟨res, acts⟩
    cases res with
    | ok b => simp [restart, hcmd, hnot, hcode, hne, hdock, Except.map]
    | error e => simp [restart, hcmd, hnot, hcode, hne, hdock, Except.map]
  · intro hcmd hrun hzero
    have hnot : ¬ (is_absolute_path first && !(env.path_exists first)) = true := by
      rcases hrun with h | h <;> simp [h]
    simp [restart, hcmd, hnot, hzero]
  · intro hth
    rcases hr : restart cfg env target with ⟨res, acts⟩
    cases res with
    | ok u => simp [probe_step, hth, hr]
    | error e => simp [probe_step, hth, hr]

/-- C8 (witness): threshold reached with a relative command that runs
and exits non-zero — the docker fallback fires and the counter resets;
and the raise path — `subprocess.run` cannot start the command, no
fallback, counter left at its incremented value. -/
theorem restart_policy_and_counter_reset_witness :
    restart ⟨["docker-compose".toList, "restart".toList],
             "/var/run/docker.sock".toList, 3⟩
        ⟨fun _ => true, .ok 1, fun _ => .ok true⟩
        ⟨"bot-a".toList, "http://bot-a:3000/health".toList,
         ["bot-a".toList]⟩ =
      (.ok (), RestartAction.runRestartCmd
          ["docker-compose".toList, "restart".toList] ::
        [RestartAction.dockerRestart "bot-a".toList]) ∧
    probe_step ⟨["docker-compose".toList, "restart".toList],
                "/var/run/docker.sock".toList, 3⟩
        ⟨fun _ => true, .ok 1, fun _ => .ok true⟩
        ⟨"bot-a".toList, "http://bot-a:3000/health".toList,
         ["bot-a".toList]⟩ 2 false =
      (match (restart ⟨["docker-compose".toList, "restart".toList],
                       "/var/run/docker.sock".toList, 3⟩
          ⟨fun _ => true, .ok 1, fun _ => .ok true⟩
          ⟨"bot-a".toList, "http://bot-a:3000/health".toList,
           ["bot-a".toList]⟩).1 with
       | .ok _ => 0
       | .error _ => 2 + 1,
       (restart ⟨["docker-compose".toList, "restart".toList],
                 "/var/run/docker.sock".toList, 3⟩
          ⟨fun _ => true, .ok 1, fun _ => .ok true⟩
          ⟨"bot-a".toList, "http://bot-a:3000/health".toList,
           ["bot-a".toList]⟩).2) ∧
    restart ⟨["docker-compose".toList, "restart".toList],
             "/var/run/docker.sock".toList, 3⟩
        ⟨fun _ => true, .error (), fun _ => .ok true⟩
        ⟨"bot-a".toList, "http://bot-a:3000/health".toList,
         ["bot-a".toList]⟩ = (.error (), []) := by
  refine ⟨?_, ?_, ?_⟩
  · have h := (restart_policy_and_counter_reset
      ⟨["docker-compose".toList, "restart".toList],
       "/var/run/docker.sock".toList, 3⟩
      ⟨fun _ => true, .ok 1, fun _ => .ok true⟩
      ⟨"bot-a".toList, "http://bot-a:3000/health".toList, ["bot-a".toList]⟩
      "docker-compose".toList ["restart".toList] 2).2.2.1 rfl
      (Or.inl (by decide)) 1 rfl (by decide)
    simpa [restart_containers_via_docker, docker_loop, Except.map] using h
  · exact (restart_policy_and_counter_reset
      ⟨["docker-compose".toList, "restart".toList],
       "/var/run/docker.sock".toList, 3⟩
      ⟨fun _ => true, .ok 1, fun _ => .ok true⟩
      ⟨"bot-a".toList, "http://bot-a:3000/health".toList, ["bot-a".toList]⟩
      "docker-compose".toList ["restart".toList] 2).2.2.2.2 (by decide)
  · exact (restart_policy_and_counter_reset
      ⟨["docker-compose".toList, "restart".toList],
       "/var/run/docker.sock".toList, 3⟩
      ⟨fun _ => true, .error (), fun _ => .ok true⟩
      ⟨"bot-a".toList, "http://bot-a:3000/health".toList, ["bot-a".toList]⟩
      "docker-compose".toList ["restart".toList] 2).2.1 rfl
      (Or.inl (by decide)) () rfl

lemma startsWithL_iff :
    ∀ (n h : List Char), startsWithL n h = true ↔ ∃ t, h = n ++ t := by
  intro n
  induction n with
  | nil =>
      intro h
      simp [startsWithL]
  | cons a as ih =>
      intro h
      cases h with
      | nil =>
          simp [startsWithL]
      | cons b bs =>
          simp only [startsWithL, Bool.and_eq_true, beq_iff_eq, ih bs,
            List.cons_append, List.cons.injEq]
          constructor
          · rintro ⟨hab, t, ht⟩
            exact ⟨t, hab.symm, ht⟩
          · rintro ⟨t, hab, ht⟩
            exact ⟨hab.symm, t, ht⟩

lemma occursIn_iff :
    ∀ (n h : List Char), occursIn n h = true ↔ ∃ p t, h = p ++ n ++ t := by
  intro n h
  induction h with
  | nil =>
      simp only [occursIn, startsWithL_iff]
      constructor
      · rintro ⟨t, ht⟩
        exact ⟨[], t, by simpa using ht⟩
      · rintro ⟨p, t, ht⟩
        have ht' : p ++ (n ++ t) = [] := by
          rw [← List.append_assoc]
          exact ht.symm
        rcases List.append_eq_nil.mp ht' with ⟨hp, hnt⟩
        rcases List.append_eq_nil.mp hnt with ⟨hn, _⟩
        exact ⟨[], by simp [hn]⟩
  | cons c t ih =>
      simp only [occursIn, Bool.or_eq_true, startsWithL_iff, ih]
      constructor
      · rintro (⟨q, hq⟩ | ⟨p, q, hpq⟩)
        · exact ⟨[], q, by simpa using hq⟩
        · exact ⟨c :: p, q, by simp [hpq]⟩
      · rintro ⟨p, q, hpq⟩
        cases p with
        | nil =>
            exact Or.inl ⟨q, by simpa using hpq⟩
        | cons c' p' =>
            right
            refine ⟨p', q, ?_⟩
            simp only [List.cons_append, List.cons.injEq] at hpq
            exact hpq.2

lemma occursIn_trans {a b c : List Char}
    (hab : occursIn a b = true) (hbc : occursIn b c = true) :
    occursIn a c = true := by
  obtain ⟨p, t, hpt⟩ := (occursIn_iff a b).mp hab
  obtain ⟨p', t', hpt'⟩ := (occursIn_iff b c).mp hbc
  exact (occursIn_iff a c).mpr ⟨p' ++ p, t ++ t', by simp [hpt', hpt]⟩

/-- C7.  `AnswerScale.from_text` scans the stripped input for each enum
literal in declaration order and returns the first that occurs as a
substring, returning `None` exactly when no literal occurs; since the
literal 예 of YES is a substring of 아마도 예, every text containing
아마도 예 parses as YES — the shorter literal shadows the longer one. -/
theorem answer_scale_order_shadowing (t : List Char) :
    (AnswerScale.from_text t = none ↔
      ∀ s : AnswerScale, occursIn s.value (pyStrip t) = false) ∧
    (occursIn AnswerScale.probablyYes.value (pyStrip t) = true →
      AnswerScale.from_text t = some AnswerScale.yes) := by
  constructor
  · simp only [AnswerScale.from_text, List.find?_eq_none, scaleOrder]
    constructor
    · intro h s
      have hmem : s ∈ [AnswerScale.yes, AnswerScale.probablyYes,
          AnswerScale.probablyNo, AnswerScale.no] := by
        cases s <;> simp
      have := h s hmem
      simpa using this
    · intro h s _
      simp [h s]
  · intro h
    have hyes : occursIn AnswerScale.yes.value AnswerScale.probablyYes.value
        = true := by decide
    have hocc : occursIn AnswerScale.yes.value (pyStrip t) = true :=
      occursIn_trans hyes h
    simp only [AnswerScale.from_text, scaleOrder]
    exact List.find?_cons_of_pos _ (by simpa using hocc)

/-- C7 (witness): a text containing 아마도 예 parses as YES. -/
theorem answer_scale_order_shadowing_witness :
    AnswerScale.from_text "답변: 아마도 예 입니다".toList =
      some AnswerScale.yes :=
  (answer_scale_order_shadowing "답변: 아마도 예 입니다".toList).2
    (by decide)

/-- C6.  With a positive TTL and unique session ids (a Python dict),
for a session whose elapsed time since `last_accessed` strictly exceeds
the TTL: the next `get_session` prunes it and raises session-expired,
and every later `get_session` for that id (without an intervening
create) returns `None`; moreover a session is expired exactly when
`now - last_accessed > ttl`. -/
theorem session_ttl_expiry_semantics
    (m : SessionManager) (now : Nat) (id : List Char) (s : GraphSession)
    (hnd : (m.sessions.map Prod.fst).Nodup)
    (hlook : lookup_session m id = some s)
    (httl : 0 < m.session_ttl)
    (hexp : m.session_ttl < (now : Int) - (s.last_accessed : Int)) :
    (get_session m now id).1 = .error () ∧
    (∀ now', (get_session (get_session m now id).2 now' id).1 = .ok none) ∧
    (∀ (s' : GraphSession) (u : Nat),
      is_expired m.session_ttl s' u = true ↔
        m.session_ttl < (u : Int) - (s'.last_accessed : Int)) := by
  have httl' : ¬ m.session_ttl ≤ 0 := by omega
  have hiff : ∀ (s' : GraphSession) (u : Nat),
      is_expired m.session_ttl s' u = true ↔
        m.session_ttl < (u : Int) - (s'.last_accessed : Int) := by
    intro s' u
    simp [is_expired, httl']
  -- the pair found by the lookup
  obtain ⟨p, hfind, hp2⟩ := Option.map_eq_some'.mp hlook
  have hpmem : p ∈ m.sessions := List.mem_of_find?_eq_some hfind
  have hpkey : p.1 = id := by
    have := List.find?_some hfind
    simpa using this
  have hpexp : is_expired m.session_ttl p.2 now = true := by
    rw [hp2]
    exact (hiff s now).mpr hexp
  -- pruning removes the pair and reports its id
  have hprune : prune_expired m now =
      ({ m with sessions := (m.sessions.filter
          (fun q => !is_expired m.session_ttl q.2 now)) },
       (m.sessions.filter
          (fun q => is_expired m.session_ttl q.2 now)).map (·.1)) := by
    simp [prune_expired, httl']
  have hin : id ∈ (prune_expired m now).2 := by
    rw [hprune]
    exact List.mem_map.mpr ⟨p, List.mem_filter.mpr ⟨hpmem, hpexp⟩, hpkey⟩
  have hfirst : get_session m now id = (.error (), (prune_expired m now).1) := by
    simp [get_session, hin]
  -- after pruning, no pair with this id remains
  have hgone : ∀ q ∈ (prune_expired m now).1.sessions, q.1 ≠ id := by
    intro q hq hqkey
    rw [hprune] at hq
    simp only [List.mem_filter] at hq
    have hq' : q = p :=
      List.inj_on_of_nodup_map hnd hq.1 hpmem (hqkey.trans hpkey.symm)
    rw [hq'] at hq
    rw [hpexp] at hq
    simp at hq
  refine ⟨by rw [hfirst], ?_, hiff⟩
  intro now'
  rw [hfirst]
  -- the second call: nothing with this id can be pruned or found
  set m' := (prune_expired m now).1 with hm'
  have hm'ttl : m'.session_ttl = m.session_ttl := by rw [hm', hprune]
  have hprune' : (prune_expired m' now').1.sessions =
      m'.sessions.filter (fun q => !is_expired m'.session_ttl q.2 now') ∧
      (prune_expired m' now').2 =
      (m'.sessions.filter (fun q => is_expired m'.session_ttl q.2 now')).map
        (·.1) := by
    constructor <;> simp [prune_expired, hm'ttl, httl']
  have hnotin : ¬ id ∈ (prune_expired m' now').2 := by
    rw [hprune'.2]
    intro hcontra
    obtain ⟨q, hq, hqkey⟩ := List.mem_map.mp hcontra
    exact hgone q (List.mem_filter.mp hq).1 hqkey
  have hnone : lookup_session (prune_expired m' now').1 id = none := by
    have : (prune_expired m' now').1.sessions.find?
        (fun q => q.1 == id) = none := by
      rw [List.find?_eq_none]
      intro q hq
      rw [hprune'.1] at hq
      have := hgone q (List.mem_filter.mp hq).1
      simpa using this
    simp [lookup_session, this]
  simp [get_session, hnotin, hnone]

/-- C6 (witness): a one-session table with TTL 10, read at instant 11
and again at instant 20. -/
theorem session_ttl_expiry_semantics_witness :
    (get_session ⟨[("s1".toList, ⟨"s1".toList, "m".toList, none, 0, 0⟩)],
        10, 50⟩ 11 "s1".toList).1 = .error () ∧
    (get_session (get_session
        ⟨[("s1".toList, ⟨"s1".toList, "m".toList, none, 0, 0⟩)], 10, 50⟩
        11 "s1".toList).2 20 "s1".toList).1 = .ok none := by
  have h := session_ttl_expiry_semantics
    ⟨[("s1".toList, ⟨"s1".toList, "m".toList, none, 0, 0⟩)], 10, 50⟩
    11 "s1".toList ⟨"s1".toList, "m".toList, none, 0, 0⟩
    (by decide) rfl (by decide) (by decide)
  exact ⟨h.1, h.2.1 20⟩

lemma pyStrip_decomp (l : List Char) :
    ∃ p q, l = p ++ pyStrip l ++ q ∧
      (∀ x ∈ p, isPySpace x = true) ∧ (∀ x ∈ q, isPySpace x = true) := by
  refine ⟨l.takeWhile isPySpace,
    ((l.dropWhile isPySpace).reverse.takeWhile isPySpace).reverse,
    ?_, ?_, ?_⟩
  · have hsplit : l.dropWhile isPySpace =
        pyStrip l ++
          ((l.dropWhile isPySpace).reverse.takeWhile isPySpace).reverse := by
      conv_lhs => rw [← List.reverse_reverse (l.dropWhile isPySpace)]
      conv_lhs =>
        rw [← List.takeWhile_append_dropWhile isPySpace
          (l.dropWhile isPySpace).reverse]
      rw [List.reverse_append]
      rfl
    conv_lhs => rw [← List.takeWhile_append_dropWhile isPySpace l, hsplit]
    rw [List.append_assoc]
  · intro x hx
    exact List.mem_takeWhile_imp hx
  · intro x hx
    exact List.mem_takeWhile_imp (List.mem_reverse.mp hx)

lemma mem_pyStrip {x : Char} {l : List Char} (h : x ∈ pyStrip l) : x ∈ l := by
  obtain ⟨p, q, hl, _, _⟩ := pyStrip_decomp l
  rw [hl]
  exact List.mem_append.mpr (Or.inl (List.mem_append.mpr (Or.inr h)))

lemma jamo_not_space {c : Char} (h : isJamoChar c = true) :
    isPySpace c = false := by
  cases hsp : isPySpace c with
  | false => rfl
  | true =>
      exfalso
      simp only [isJamoChar, Bool.or_eq_true, Bool.and_eq_true,
        decide_eq_true_eq] at h
      simp only [isPySpace, Bool.or_eq_true, Bool.and_eq_true, beq_iff_eq,
        decide_eq_true_eq] at hsp
      omega

lemma syllable_not_space {c : Char} (h : isHangulSyllable c = true) :
    isPySpace c = false := by
  cases hsp : isPySpace c with
  | false => rfl
  | true =>
      exfalso
      simp only [isHangulSyllable, Bool.and_eq_true, decide_eq_true_eq] at h
      simp only [isPySpace, Bool.or_eq_true, Bool.and_eq_true, beq_iff_eq,
        decide_eq_true_eq] at hsp
      omega

lemma syllable_not_allowed {c : Char} (h : isHangulSyllable c = true) :
    isJamoOnlyAllowed c = false := by
  cases hal : isJamoOnlyAllowed c with
  | false => rfl
  | true =>
      exfalso
      simp only [isHangulSyllable, Bool.and_eq_true, decide_eq_true_eq] at h
      simp only [isJamoOnlyAllowed, isPySpace, isPyDigit, isAsciiPunct,
        isJamoChar, Bool.or_eq_true, Bool.and_eq_true, beq_iff_eq,
        decide_eq_true_eq] at hal
      omega

lemma space_allowed {c : Char} (h : isPySpace c = true) :
    isJamoOnlyAllowed c = true := by
  simp [isJamoOnlyAllowed, h]

lemma is_jamo_only_iff (l : List Char) :
    is_jamo_only l = true ↔
      pyStrip l ≠ [] ∧ (pyStrip l).any isJamoChar = true ∧
        (pyStrip l).all isJamoOnlyAllowed = true := by
  simp only [is_jamo_only]
  split
  · rename_i he
    simp [List.isEmpty_iff.mp he]
  · rename_i he
    have : pyStrip l ≠ [] := by
      intro h0
      exact he (by simp [h0])
    simp [this]

/-- C9.  For every string with `is_jamo_only` true, appending any
number of ASCII spaces or digits leaves it true, and appending a single
composed Hangul syllable (U+AC00–U+D7A3) makes it false. -/
theorem jamo_only_append_invariance
    (S suffix : List Char) (c : Char)
    (hS : is_jamo_only S = true)
    (hsuf : ∀ x ∈ suffix, x = ' ' ∨ isPyDigit x = true)
    (hc : isHangulSyllable c = true) :
    is_jamo_only (S ++ suffix) = true ∧ is_jamo_only (S ++ [c]) = false := by
  obtain ⟨hne, hany, hall⟩ := (is_jamo_only_iff S).mp hS
  constructor
  · -- every character of S is in the allowed class
    have hSallowed : ∀ x ∈ S, isJamoOnlyAllowed x = true := by
      obtain ⟨p, q, hl, hp, hq⟩ := pyStrip_decomp S
      intro x hx
      rw [hl] at hx
      rcases List.mem_append.mp hx with hx' | hx'
      · rcases List.mem_append.mp hx' with hx'' | hx''
        · exact space_allowed (hp x hx'')
        · exact List.all_eq_true.mp hall x hx''
      · exact space_allowed (hq x hx')
    have hTallowed : ∀ x ∈ S ++ suffix, isJamoOnlyAllowed x = true := by
      intro x hx
      rcases List.mem_append.mp hx with hx' | hx'
      · exact hSallowed x hx'
      · rcases hsuf x hx' with h | h
        · subst h; decide
        · simp [isJamoOnlyAllowed, h]
    -- the jamo character of S survives stripping of the extension
    obtain ⟨j, hjmem, hj⟩ := List.any_eq_true.mp hany
    have hjT : j ∈ S ++ suffix :=
      List.mem_append.mpr (Or.inl (mem_pyStrip hjmem))
    obtain ⟨p', q', hT, hp', hq'⟩ := pyStrip_decomp (S ++ suffix)
    have hjmid : j ∈ pyStrip (S ++ suffix) := by
      rw [hT] at hjT
      rcases List.mem_append.mp hjT with h1 | h1
      · rcases List.mem_append.mp h1 with h2 | h2
        · exact absurd (hp' j h2) (by simp [jamo_not_space hj])
        · exact h2
      · exact absurd (hq' j h1) (by simp [jamo_not_space hj])
    refine (is_jamo_only_iff _).mpr ⟨?_, ?_, ?_⟩
    · intro h0
      rw [h0] at hjmid
      cases hjmid
    · exact List.any_eq_true.mpr ⟨j, hjmid, hj⟩
    · exact List.all_eq_true.mpr
        (fun x hx => hTallowed x (mem_pyStrip hx))
  · -- the appended syllable survives stripping and is not allowed
    have hcns : isPySpace c = false := syllable_not_space hc
    have hdw : ∃ X, (S ++ [c]).dropWhile isPySpace = X ++ [c] := by
      rw [List.dropWhile_append]
      split
      · refine ⟨[], ?_⟩
        simp [List.dropWhile_cons, hcns]
      · exact ⟨S.dropWhile isPySpace, rfl⟩
    obtain ⟨X, hX⟩ := hdw
    have hstrip : pyStrip (S ++ [c]) = X ++ [c] := by
      simp only [pyStrip, dropTrailingSpace, hX]
      have h1 : (X ++ [c]).reverse = c :: X.reverse := by simp
      rw [h1, List.dropWhile_cons]
      simp [hcns]
    cases hb : is_jamo_only (S ++ [c]) with
    | false => rfl
    | true =>
        exfalso
        obtain ⟨_, _, hall'⟩ := (is_jamo_only_iff _).mp hb
        have hcmem : c ∈ pyStrip (S ++ [c]) := by
          rw [hstrip]
          simp
        have := List.all_eq_true.mp hall' c hcmem
        rw [syllable_not_allowed hc] at this
        cases this

/-- C9 (witness): ㄱㄴ with a space and two digits appended stays
jamo-only; ㄱㄴ with the syllable 가 appended does not. -/
theorem jamo_only_append_invariance_witness :
    is_jamo_only ("ㄱㄴ".toList ++ " 12".toList) = true ∧
    is_jamo_only ("ㄱㄴ".toList ++ ['가']) = false :=
  jamo_only_append_invariance "ㄱㄴ".toList " 12".toList '가'
    (by decide) (by decide) (by decide)

end McpLlm
